import Mathlib

/-!
# Shallow embedding of `ArenaAllocator` (src/include/arena_allocator.h)

The C++ class `ArenaAllocator` is a linear (bump) allocator over a single
`malloc`ed buffer.  Its mutable state is three fields:

  * `m_memoryBlock : std::byte*` — base address of the buffer,
  * `m_totalSize   : size_t`     — capacity in bytes,
  * `m_offset      : size_t`     — current bump position.

All `size_t` / `uintptr_t` arithmetic in the source is unsigned machine
arithmetic on a 64-bit platform (`size_t` = `uintptr_t` = 64 bits), i.e. it
wraps modulo `2^64`.  We embed machine words as `Nat` with explicit `% W`
where the source wraps, `W = 2^64`.

In addition to the three concrete fields we carry ghost instrumentation that
lets frame claims be stated:

  * `buf` — the byte contents of the buffer.  `Alloc`, `Reset` and
    `ResetToMarker` never read or write the buffer in the source, so none of
    their embeddings touch `buf`.
  * `constructions` — log of addresses passed to placement-`new` by `New`
    (the only place the source constructs an object).
  * `destructions` — count of object-destructor invocations.  No member
    function of the class ever invokes a destructor of an object living in
    the buffer (`Reset` and `ResetToMarker` are single assignments to
    `m_offset`), so no embedded operation increments this counter.
-/

/-- Word modulus of the 64-bit platform: `size_t` and `uintptr_t` arithmetic
is modulo `W`. -/
def W : Nat := 2 ^ 64

/-- State of an `ArenaAllocator` object.  `memoryBlock` is the numeric value
of the `std::byte*` base pointer. `buf`, `constructions` and `destructions`
are ghost fields (see the file header). -/
structure Arena where
  memoryBlock : Nat
  totalSize : Nat
  offset : Nat
  buf : List Nat
  constructions : List Nat
  destructions : Nat
deriving Repr, DecidableEq

/-- The constructor `ArenaAllocator(sizeInBytes)`: stores the malloc result
(base address `block`, with initial contents `contents`), the capacity, and
leaves `m_offset` at its member-initializer value `0`. -/
def mkArena (block sizeInBytes : Nat) (contents : List Nat) : Arena :=
  { memoryBlock := block
    totalSize := sizeInBytes
    offset := 0
    buf := contents
    constructions := []
    destructions := 0 }

/-- The padding computation inside `Alloc`:

    const uintptr_t currentPtr = reinterpret_cast<uintptr_t>(m_memoryBlock) + m_offset;
    uintptr_t offset  = currentPtr & (align - 1);
    uintptr_t padding = (offset == 0) ? 0 : (align - offset);

`align - 1` and `align - offset` are `uintptr_t` subtractions, hence wrap
modulo `W`; we write the wraps out explicitly (`(align + W - 1) % W` equals
`align - 1` for `align ≥ 1` and `W - 1` for `align = 0`). -/
def allocPadding (a : Arena) (align : Nat) : Nat :=
  let currentPtr := (a.memoryBlock + a.offset) % W
  let off := Nat.land currentPtr ((align + W - 1) % W)
  if off = 0 then 0 else (align + W - off) % W

/-- `Alloc(size, align)`: returns the allocated address (or `none` for the
`nullptr` sentinel) together with the post-state.

    if (m_offset + padding + size > m_totalSize) return nullptr;
    const uintptr_t nextAddress = currentPtr + padding;
    m_offset += padding + size;
    return reinterpret_cast<void*>(nextAddress);

The guard compares the wrapped `size_t` sum against `m_totalSize`, and on
success `m_offset` becomes that same wrapped sum. -/
def Alloc (a : Arena) (size align : Nat) : Option Nat × Arena :=
  let currentPtr := (a.memoryBlock + a.offset) % W
  let padding := allocPadding a align
  if (a.offset + padding + size) % W > a.totalSize then
    (none, a)
  else
    (some ((currentPtr + padding) % W),
      { a with offset := (a.offset + padding + size) % W })

/-- `Reset()`: `m_offset = 0;` — nothing else. -/
def Reset (a : Arena) : Arena :=
  { a with offset := 0 }

/-- `New<T>(args...)` for a type of size `size` and alignment `align`:

    void* mem = Alloc(sizeof(T), alignof(T));
    if (!mem) return nullptr;
    return new (mem) T(std::forward<Args>(args)...);

On success the placement-`new` constructs the object at the allocated
address; we record that construction event in the `constructions` ghost log
(the constructed bytes themselves depend on `T` and are not modelled). -/
def New (a : Arena) (size align : Nat) : Option Nat × Arena :=
  match Alloc a size align with
  | (none, a') => (none, a')
  | (some p, a') => (some p, { a' with constructions := p :: a'.constructions })

/-- `AllocArray<T>(count)` for a type of size `sizeT` and alignment `align`:

    return static_cast<T*>(Alloc(sizeof(T) * count, alignof(T)));

`sizeof(T) * count` is a `size_t` product and wraps modulo `W`. -/
def AllocArray (a : Arena) (sizeT align count : Nat) : Option Nat × Arena :=
  Alloc a ((sizeT * count) % W) align

/-- `GetUsedMemory()`: returns `m_offset`. -/
def GetUsedMemory (a : Arena) : Nat := a.offset

/-- `GetTotalSize()`: returns `m_totalSize`. -/
def GetTotalSize (a : Arena) : Nat := a.totalSize

/-- `GetMarker()`: returns `m_offset`. -/
def GetMarker (a : Arena) : Nat := a.offset

/-- `ResetToMarker(marker)`: `m_offset = marker;` — nothing else. -/
def ResetToMarker (a : Arena) (marker : Nat) : Arena :=
  { a with offset := marker }

/-- One client request against the arena (the operations the spec's claims
range over). `getMarker` and the read-only getters do not change the state;
`getMarker` is kept as an operation so runs can record which marker values
have been handed out. -/
inductive Op where
  | alloc (size align : Nat)
  | opNew (size align : Nat)
  | allocArray (sizeT align count : Nat)
  | reset
  | getMarker
  | resetToMarker (m : Nat)
deriving Repr, DecidableEq

/-- State transition of a single operation. -/
def applyOp (a : Arena) (op : Op) : Arena :=
  match op with
  | .alloc s al => (Alloc a s al).2
  | .opNew s al => (New a s al).2
  | .allocArray s al c => (AllocArray a s al c).2
  | .reset => Reset a
  | .getMarker => a
  | .resetToMarker m => ResetToMarker a m

/-- Run a list of operations. -/
def run (a : Arena) : List Op → Arena
  | [] => a
  | op :: rest => run (applyOp a op) rest

/-- Run a list of operations while accumulating the marker values returned
by `GetMarker` along the way (`ms` is the set of markers already handed
out). -/
def runMk : Arena → List Nat → List Op → Arena × List Nat
  | a, ms, [] => (a, ms)
  | a, ms, op :: rest =>
    let ms' := match op with
      | .getMarker => GetMarker a :: ms
      | _ => ms
    runMk (applyOp a op) ms' rest

/-- Marker discipline: every `resetToMarker m` in the run passes a value `m`
previously returned by `GetMarker` on this same arena (i.e. already in the
accumulated marker list). -/
def markersOk : Arena → List Nat → List Op → Bool
  | _, _, [] => true
  | a, ms, op :: rest =>
    let ok := match op with
      | .resetToMarker m => decide (m ∈ ms)
      | _ => true
    let ms' := match op with
      | .getMarker => GetMarker a :: ms
      | _ => ms
    ok && markersOk (applyOp a op) ms' rest

/-- Run a list of plain `Alloc` requests (`(size, align)` pairs), returning
the final state. -/
def runAllocs (a : Arena) : List (Nat × Nat) → Arena
  | [] => a
  | (s, al) :: rest => runAllocs (Alloc a s al).2 rest

/-- The list of results (`some address` or the `nullptr` sentinel `none`)
of a list of `Alloc` requests. -/
def allocResults (a : Arena) : List (Nat × Nat) → List (Option Nat)
  | [] => []
  | (s, al) :: rest => (Alloc a s al).1 :: allocResults (Alloc a s al).2 rest

/-- A list of `Alloc` requests during which no `size_t` addition in the
guard `m_offset + padding + size > m_totalSize` wraps: at each step the
exact sum is below `W`. -/
def noWrapAllocs : Arena → List (Nat × Nat) → Bool
  | _, [] => true
  | a, (s, al) :: rest =>
    decide (a.offset + allocPadding a al + s < W) && noWrapAllocs (Alloc a s al).2 rest

example : (Alloc (mkArena 16 100 []) 30 8).1 = some 16 := by decide
example : (Alloc (mkArena 16 100 []) 30 8).2.offset = 30 := by decide
example : (Alloc (mkArena 17 100 []) 30 8).1 = some 24 := by decide
example : (Alloc (mkArena 16 100 []) 101 8).1 = none := by decide

/-! ## Basic lemmas about a single `Alloc` -/

theorem W_pos : 0 < W := by decide

/-- For a power-of-two alignment (the only alignments the source supports),
the bit-mask padding computation is padding to the next multiple of the
alignment. -/
theorem allocPadding_two_pow (a : Arena) (k : Nat) (hk : k < 64) :
    allocPadding a (2 ^ k) =
      (if (a.memoryBlock + a.offset) % 2 ^ k = 0 then 0
       else 2 ^ k - (a.memoryBlock + a.offset) % 2 ^ k) := by
  have halign : (1 : Nat) ≤ 2 ^ k := Nat.one_le_two_pow
  have hlt : 2 ^ k < W := by
    have := Nat.pow_lt_pow_right (a := 2) one_lt_two hk
    simpa [W] using this
  have hmask : (2 ^ k + W - 1) % W = 2 ^ k - 1 := by
    have h1 : 2 ^ k + W - 1 = W + (2 ^ k - 1) := by omega
    rw [h1, Nat.add_mod_left, Nat.mod_eq_of_lt (by omega)]
  have hland : Nat.land ((a.memoryBlock + a.offset) % W) (2 ^ k - 1)
      = (a.memoryBlock + a.offset) % 2 ^ k := by
    have h2 : ((a.memoryBlock + a.offset) % W) % 2 ^ k
        = (a.memoryBlock + a.offset) % 2 ^ k :=
      Nat.mod_mod_of_dvd _ (pow_dvd_pow 2 hk.le)
    calc Nat.land ((a.memoryBlock + a.offset) % W) (2 ^ k - 1)
        = ((a.memoryBlock + a.offset) % W) % 2 ^ k :=
          Nat.and_pow_two_sub_one_eq_mod _ k
      _ = (a.memoryBlock + a.offset) % 2 ^ k := h2
  show (if Nat.land ((a.memoryBlock + a.offset) % W) ((2 ^ k + W - 1) % W) = 0
          then 0
          else (2 ^ k + W - Nat.land ((a.memoryBlock + a.offset) % W)
            ((2 ^ k + W - 1) % W)) % W) = _
  rw [hmask, hland]
  by_cases h : (a.memoryBlock + a.offset) % 2 ^ k = 0
  · simp [h]
  · have hr : (a.memoryBlock + a.offset) % 2 ^ k < 2 ^ k :=
      Nat.mod_lt _ (by omega)
    have h3 : 2 ^ k + W - (a.memoryBlock + a.offset) % 2 ^ k
        = W + (2 ^ k - (a.memoryBlock + a.offset) % 2 ^ k) := by omega
    rw [if_neg h, if_neg h, h3, Nat.add_mod_left, Nat.mod_eq_of_lt (by omega)]

/-- The padding never reaches the (power-of-two) alignment. -/
theorem allocPadding_lt (a : Arena) (k : Nat) (hk : k < 64) :
    allocPadding a (2 ^ k) < 2 ^ k := by
  rw [allocPadding_two_pow a k hk]
  have hp : 0 < 2 ^ k := pow_pos (by norm_num) k
  have hr : (a.memoryBlock + a.offset) % 2 ^ k < 2 ^ k := Nat.mod_lt _ hp
  split <;> omega

/-- Adding the padding lands on a multiple of the alignment. -/
theorem allocPadding_aligns (a : Arena) (k : Nat) (hk : k < 64) :
    (a.memoryBlock + a.offset + allocPadding a (2 ^ k)) % 2 ^ k = 0 := by
  rw [allocPadding_two_pow a k hk]
  have hp : 0 < 2 ^ k := pow_pos (by norm_num) k
  have hr : (a.memoryBlock + a.offset) % 2 ^ k < 2 ^ k := Nat.mod_lt _ hp
  split
  · next h => simp [h]
  · next h =>
    rw [Nat.add_mod]
    have h1 : (2 ^ k - (a.memoryBlock + a.offset) % 2 ^ k) % 2 ^ k
        = 2 ^ k - (a.memoryBlock + a.offset) % 2 ^ k :=
      Nat.mod_eq_of_lt (by omega)
    rw [h1]
    have h2 : (a.memoryBlock + a.offset) % 2 ^ k
        + (2 ^ k - (a.memoryBlock + a.offset) % 2 ^ k) = 2 ^ k := by omega
    rw [h2, Nat.mod_self]

/-- `Alloc` touches no field but `m_offset`. -/
theorem Alloc_frame (a : Arena) (s al : Nat) :
    (Alloc a s al).2.memoryBlock = a.memoryBlock ∧
    (Alloc a s al).2.totalSize = a.totalSize ∧
    (Alloc a s al).2.buf = a.buf ∧
    (Alloc a s al).2.constructions = a.constructions ∧
    (Alloc a s al).2.destructions = a.destructions := by
  simp only [Alloc]
  split <;> simp

/-- The guard keeps the bump position within the capacity: whatever `size`
and `align` are, the new `m_offset` never exceeds `m_totalSize`. -/
theorem Alloc_offset_le (a : Arena) (s al : Nat) (h : a.offset ≤ a.totalSize) :
    (Alloc a s al).2.offset ≤ a.totalSize := by
  simp only [Alloc]
  split
  · exact h
  · next hguard => simpa using Nat.le_of_not_lt hguard

/-- A failed `Alloc` leaves the state untouched. -/
theorem Alloc_fail_frame (a : Arena) (s al : Nat)
    (h : (Alloc a s al).1 = none) : (Alloc a s al).2 = a := by
  revert h
  simp only [Alloc]
  split <;> simp

/-- `Alloc` succeeds exactly when the wrapped `size_t` sum
`m_offset + padding + size` stays within `m_totalSize`. -/
theorem Alloc_succeeds_iff (a : Arena) (s al : Nat) :
    (Alloc a s al).1 ≠ none ↔
      (a.offset + allocPadding a al + s) % W ≤ a.totalSize := by
  simp only [Alloc]
  split
  · next hguard => simpa using hguard
  · next hguard => simpa using Nat.le_of_not_lt hguard

/-- On success, the returned address and the new offset are the wrapped
aligned address and the wrapped sum. -/
theorem Alloc_success_eq (a : Arena) (s al : Nat)
    (h : (a.offset + allocPadding a al + s) % W ≤ a.totalSize) :
    Alloc a s al =
      (some (((a.memoryBlock + a.offset) % W + allocPadding a al) % W),
        { a with offset := (a.offset + allocPadding a al + s) % W }) := by
  simp only [Alloc]
  rw [if_neg (by omega)]

/-- `Alloc`'s result and offset evolution depend only on the three concrete
fields (`m_memoryBlock`, `m_totalSize`, `m_offset`). -/
theorem Alloc_congr (a b : Arena) (s al : Nat)
    (h1 : a.memoryBlock = b.memoryBlock) (h2 : a.totalSize = b.totalSize)
    (h3 : a.offset = b.offset) :
    (Alloc a s al).1 = (Alloc b s al).1 ∧
    (Alloc a s al).2.offset = (Alloc b s al).2.offset := by
  have hpad : allocPadding a al = allocPadding b al := by
    simp only [allocPadding, h1, h3]
  refine ⟨?_, ?_⟩ <;>
  · simp only [Alloc, hpad, h1, h2, h3]
    split_ifs <;> simp [h3]

/-! ## Lemmas about `New`, `applyOp` and runs -/

/-- `New` touches no field but `m_offset` and the construction log. -/
theorem New_frame (a : Arena) (s al : Nat) :
    (New a s al).2.memoryBlock = a.memoryBlock ∧
    (New a s al).2.totalSize = a.totalSize ∧
    (New a s al).2.buf = a.buf ∧
    (New a s al).2.destructions = a.destructions := by
  have h := Alloc_frame a s al
  unfold New
  rcases hA : Alloc a s al with ⟨mem, a'⟩
  rw [hA] at h
  cases mem <;> simp_all

/-- `New` moves the bump position exactly as the underlying `Alloc` does. -/
theorem New_offset (a : Arena) (s al : Nat) :
    (New a s al).2.offset = (Alloc a s al).2.offset := by
  unfold New
  rcases hA : Alloc a s al with ⟨mem, a'⟩
  cases mem <;> simp

/-- No operation moves the base pointer, the capacity, the buffer contents,
or the destruction counter. -/
theorem applyOp_frame (a : Arena) (op : Op) :
    (applyOp a op).memoryBlock = a.memoryBlock ∧
    (applyOp a op).totalSize = a.totalSize ∧
    (applyOp a op).buf = a.buf ∧
    (applyOp a op).destructions = a.destructions := by
  cases op with
  | alloc s al => exact ⟨(Alloc_frame a s al).1, (Alloc_frame a s al).2.1,
      (Alloc_frame a s al).2.2.1, (Alloc_frame a s al).2.2.2.2⟩
  | opNew s al => exact New_frame a s al
  | allocArray s al c => exact ⟨(Alloc_frame a _ al).1, (Alloc_frame a _ al).2.1,
      (Alloc_frame a _ al).2.2.1, (Alloc_frame a _ al).2.2.2.2⟩
  | reset => exact ⟨rfl, rfl, rfl, rfl⟩
  | getMarker => exact ⟨rfl, rfl, rfl, rfl⟩
  | resetToMarker m => exact ⟨rfl, rfl, rfl, rfl⟩

/-- A whole run moves neither the base pointer, nor the capacity, nor the
buffer contents, nor the destruction counter. -/
theorem run_frame (ops : List Op) (a : Arena) :
    (run a ops).memoryBlock = a.memoryBlock ∧
    (run a ops).totalSize = a.totalSize ∧
    (run a ops).buf = a.buf ∧
    (run a ops).destructions = a.destructions := by
  induction ops generalizing a with
  | nil => exact ⟨rfl, rfl, rfl, rfl⟩
  | cons op rest ih =>
    have h1 := applyOp_frame a op
    have h2 := ih (applyOp a op)
    simp only [run]
    exact ⟨h2.1.trans h1.1, h2.2.1.trans h1.2.1,
      h2.2.2.1.trans h1.2.2.1, h2.2.2.2.trans h1.2.2.2⟩

/-- `runMk` makes the same state transitions as `run` (it only accumulates
markers on the side). -/
theorem runMk_fst (ops : List Op) (a : Arena) (ms : List Nat) :
    (runMk a ms ops).1 = run a ops := by
  induction ops generalizing a ms with
  | nil => rfl
  | cons op rest ih => simp only [runMk, run]; exact ih _ _

/-- One step preserves `offset ≤ totalSize`, provided a `resetToMarker`
only uses a marker value within the capacity. -/
theorem applyOp_offset_le (a : Arena) (op : Op) (ha : a.offset ≤ a.totalSize)
    (hm : ∀ m, op = Op.resetToMarker m → m ≤ a.totalSize) :
    (applyOp a op).offset ≤ (applyOp a op).totalSize := by
  rw [(applyOp_frame a op).2.1]
  cases op with
  | alloc s al => exact Alloc_offset_le a s al ha
  | opNew s al =>
    show (New a s al).2.offset ≤ a.totalSize
    rw [New_offset]; exact Alloc_offset_le a s al ha
  | allocArray s al c => exact Alloc_offset_le a _ al ha
  | reset => exact Nat.zero_le _
  | getMarker => exact ha
  | resetToMarker m => exact hm m rfl

/-- C1 workhorse: a run that respects the marker discipline keeps
`0 ≤ offset ≤ capacity` at the end (and, since any prefix of such a run is
such a run, in every reachable state). -/
theorem runMk_offset_le (ops : List Op) :
    ∀ (a : Arena) (ms : List Nat), a.offset ≤ a.totalSize →
      (∀ m ∈ ms, m ≤ a.totalSize) → markersOk a ms ops = true →
      (runMk a ms ops).1.offset ≤ (runMk a ms ops).1.totalSize := by
  induction ops with
  | nil => intro a ms ha _ _; exact ha
  | cons op rest ih =>
    intro a ms ha hms hok
    simp only [markersOk, Bool.and_eq_true] at hok
    obtain ⟨hok1, hok2⟩ := hok
    have htot : (applyOp a op).totalSize = a.totalSize := (applyOp_frame a op).2.1
    have hmark : ∀ m, op = Op.resetToMarker m → m ≤ a.totalSize := by
      intro m hop
      subst hop
      exact hms m (by simpa using hok1)
    have ha' : (applyOp a op).offset ≤ (applyOp a op).totalSize :=
      applyOp_offset_le a op ha hmark
    simp only [runMk]
    apply ih
    · exact ha'
    · intro m hmem
      rw [htot]
      cases op with
      | getMarker =>
        simp only [GetMarker] at hmem
        rcases List.mem_cons.mp hmem with h | h
        · subst h; exact ha
        · exact hms m h
      | alloc s al => exact hms m hmem
      | opNew s al => exact hms m hmem
      | allocArray s al c => exact hms m hmem
      | reset => exact hms m hmem
      | resetToMarker mk => exact hms m hmem
    · exact hok2

/-- The marker discipline restricts to every prefix of a run. -/
theorem markersOk_append (pre suf : List Op) :
    ∀ (a : Arena) (ms : List Nat),
      markersOk a ms (pre ++ suf) = true → markersOk a ms pre = true := by
  induction pre with
  | nil => intro a ms _; rfl
  | cons op rest ih =>
    intro a ms h
    simp only [List.cons_append, markersOk, Bool.and_eq_true] at h ⊢
    exact ⟨h.1, ih _ _ h.2⟩

/-- The whole result sequence of a list of `Alloc` requests depends only on
the three concrete fields of the starting state. -/
theorem allocResults_congr (reqs : List (Nat × Nat)) :
    ∀ a b : Arena, a.memoryBlock = b.memoryBlock → a.totalSize = b.totalSize →
      a.offset = b.offset → allocResults a reqs = allocResults b reqs := by
  induction reqs with
  | nil => intro a b _ _ _; rfl
  | cons r rest ih =>
    rcases r with ⟨s, al⟩
    intro a b h1 h2 h3
    have hc := Alloc_congr a b s al h1 h2 h3
    simp only [allocResults]
    rw [hc.1]
    refine congrArg (List.cons _) (ih _ _ ?_ ?_ hc.2)
    · exact (Alloc_frame a s al).1.trans (h1.trans (Alloc_frame b s al).1.symm)
    · exact (Alloc_frame a s al).2.1.trans (h2.trans (Alloc_frame b s al).2.1.symm)

/-- A run of `Alloc` requests moves neither the base pointer nor the
capacity. -/
theorem runAllocs_frame (reqs : List (Nat × Nat)) :
    ∀ a : Arena, (runAllocs a reqs).memoryBlock = a.memoryBlock ∧
      (runAllocs a reqs).totalSize = a.totalSize := by
  induction reqs with
  | nil => intro a; exact ⟨rfl, rfl⟩
  | cons r rest ih =>
    rcases r with ⟨s, al⟩
    intro a
    exact ⟨(ih _).1.trans (Alloc_frame a s al).1,
      (ih _).2.trans (Alloc_frame a s al).2.1⟩

/-- A run of `Alloc` requests keeps the bump position within capacity. -/
theorem runAllocs_offset_le (reqs : List (Nat × Nat)) :
    ∀ a : Arena, a.offset ≤ a.totalSize →
      (runAllocs a reqs).offset ≤ a.totalSize := by
  induction reqs with
  | nil => intro a h; exact h
  | cons r rest ih =>
    rcases r with ⟨s, al⟩
    intro a h
    have h1 : (Alloc a s al).2.offset ≤ (Alloc a s al).2.totalSize := by
      rw [(Alloc_frame a s al).2.1]
      exact Alloc_offset_le a s al h
    have := ih _ h1
    rwa [(Alloc_frame a s al).2.1] at this

/-- When the guard's additions do not wrap, `Alloc` never moves the bump
position backwards. -/
theorem Alloc_offset_mono (a : Arena) (s al : Nat)
    (hnw : a.offset + allocPadding a al + s < W) :
    a.offset ≤ (Alloc a s al).2.offset := by
  simp only [Alloc]
  split
  · exact Nat.le_refl _
  · simp only
    rw [Nat.mod_eq_of_lt hnw]
    omega

/-- Over a wrap-free run of `Alloc` requests the bump position is
monotone. -/
theorem runAllocs_offset_mono (reqs : List (Nat × Nat)) :
    ∀ a : Arena, noWrapAllocs a reqs = true →
      a.offset ≤ (runAllocs a reqs).offset := by
  induction reqs with
  | nil => intro a _; exact Nat.le_refl _
  | cons r rest ih =>
    rcases r with ⟨s, al⟩
    intro a hnw
    simp only [noWrapAllocs, Bool.and_eq_true, decide_eq_true_eq] at hnw
    exact (Alloc_offset_mono a s al hnw.1).trans (ih _ hnw.2)

/-- On a wrap-free successful allocation the returned address is exactly
`base + offset + padding` and the new offset exactly
`offset + padding + size` (no `% W` left). -/
theorem Alloc_addr_no_wrap (a : Arena) (s al p : Nat)
    (hspace : a.memoryBlock + a.totalSize < W) (hoff : a.offset ≤ a.totalSize)
    (hnw : a.offset + allocPadding a al + s < W)
    (hsucc : (Alloc a s al).1 = some p) :
    p = a.memoryBlock + a.offset + allocPadding a al ∧
    (Alloc a s al).2.offset = a.offset + allocPadding a al + s := by
  have hle : (a.offset + allocPadding a al + s) % W ≤ a.totalSize :=
    (Alloc_succeeds_iff a s al).mp (by simp [hsucc])
  rw [Nat.mod_eq_of_lt hnw] at hle
  have hEq := Alloc_success_eq a s al (by rw [Nat.mod_eq_of_lt hnw]; exact hle)
  have hcur : (a.memoryBlock + a.offset) % W = a.memoryBlock + a.offset :=
    Nat.mod_eq_of_lt (by omega)
  have haddr : ((a.memoryBlock + a.offset) % W + allocPadding a al) % W
      = a.memoryBlock + a.offset + allocPadding a al := by
    rw [hcur]
    exact Nat.mod_eq_of_lt (by omega)
  rw [hEq] at hsucc ⊢
  refine ⟨?_, by simp [Nat.mod_eq_of_lt hnw]⟩
  simp only [haddr] at hsucc
  simpa using hsucc.symm

/-! ## Claim theorems -/

/-- C1: starting from any arena state satisfying `offset ≤ capacity` (in
particular a freshly constructed one) with any set `ms` of markers already
returned by `GetMarker` (hence each `≤ capacity`), every sequence of
`Alloc`/`New`/`AllocArray`/`Reset`/`GetMarker`/`ResetToMarker` operations in
which each `ResetToMarker` uses a previously returned marker keeps
`0 ≤ offset ≤ capacity` in every reachable state — the state after every
prefix of the run; in particular no `Alloc`, whatever `size` and `align`,
pushes `offset` past `capacity`. -/
theorem c1_offset_invariant (a : Arena) (ms : List Nat) (ops pre suf : List Op)
    (ha : a.offset ≤ a.totalSize) (hms : ∀ m ∈ ms, m ≤ a.totalSize)
    (hok : markersOk a ms ops = true) (hsplit : ops = pre ++ suf) :
    0 ≤ (runMk a ms pre).1.offset ∧
    (runMk a ms pre).1.offset ≤ (runMk a ms pre).1.totalSize := by
  subst hsplit
  exact ⟨Nat.zero_le _, runMk_offset_le pre a ms ha hms (markersOk_append pre suf a ms hok)⟩

/-- Witness for C1: a concrete run with an allocation, a marker round-trip
and an allocation that fails for lack of space. -/
theorem c1_offset_invariant_witness :
    0 ≤ (runMk (mkArena 16 100 []) []
          [Op.alloc 30 8, Op.getMarker, Op.alloc 50 8, Op.resetToMarker 30]).1.offset ∧
    (runMk (mkArena 16 100 []) []
          [Op.alloc 30 8, Op.getMarker, Op.alloc 50 8, Op.resetToMarker 30]).1.offset ≤
      (runMk (mkArena 16 100 []) []
          [Op.alloc 30 8, Op.getMarker, Op.alloc 50 8, Op.resetToMarker 30]).1.totalSize :=
  c1_offset_invariant (mkArena 16 100 []) []
    [Op.alloc 30 8, Op.getMarker, Op.alloc 50 8, Op.resetToMarker 30, Op.alloc 200 1]
    [Op.alloc 30 8, Op.getMarker, Op.alloc 50 8, Op.resetToMarker 30]
    [Op.alloc 200 1]
    (by decide) (by decide) (by decide) rfl

/-- C2, counterexample to the claim as stated: the guard compares the
*wrapped* `size_t` sum, not the mathematical one.  On the arena
`{base := 8, capacity := 100, offset := 50}` the call
`Alloc(2^64 - 10, 1)` has `offset + padding + size = 50 + 0 + (2^64 - 10)`,
which mathematically exceeds the capacity `100`, so the claim demands the
null sentinel with `offset` unchanged; the code instead wraps the sum to
`40 ≤ 100`, returns a non-null pointer and sets `offset` to `40`. -/
theorem c2_counterexample :
    (⟨8, 100, 50, [], [], 0⟩ : Arena).offset
        + allocPadding (⟨8, 100, 50, [], [], 0⟩ : Arena) 1 + (2 ^ 64 - 10)
      > (⟨8, 100, 50, [], [], 0⟩ : Arena).totalSize ∧
    (Alloc (⟨8, 100, 50, [], [], 0⟩ : Arena) (2 ^ 64 - 10) 1).1 ≠ none ∧
    (Alloc (⟨8, 100, 50, [], [], 0⟩ : Arena) (2 ^ 64 - 10) 1).2.offset = 40 := by
  refine ⟨by decide, by decide, by decide⟩

/-- C2 (amended): the sum `offset + padding + size` is computed in wrapping
`size_t` arithmetic.  `Alloc` fails — returning the null sentinel with the
state fully unchanged — exactly when the wrapped sum exceeds `capacity`;
otherwise it sets `offset` to the wrapped sum (an advance by exactly
`padding + size` whenever that addition does not wrap) and returns an
`align`-aligned address. -/
theorem c2_alloc_result_spec (a : Arena) (size k : Nat) (hk : k < 64) :
    ((Alloc a size (2 ^ k)).1 = none ↔
      (a.offset + allocPadding a (2 ^ k) + size) % W > a.totalSize) ∧
    ((Alloc a size (2 ^ k)).1 = none → (Alloc a size (2 ^ k)).2 = a) ∧
    ((a.offset + allocPadding a (2 ^ k) + size) % W ≤ a.totalSize →
      (Alloc a size (2 ^ k)).2 =
        { a with offset := (a.offset + allocPadding a (2 ^ k) + size) % W } ∧
      ∃ p, (Alloc a size (2 ^ k)).1 = some p ∧ p % 2 ^ k = 0) := by
  refine ⟨⟨?_, ?_⟩, Alloc_fail_frame a size _, ?_⟩
  · intro h
    by_contra hle
    exact absurd h
      (by simpa using (Alloc_succeeds_iff a size (2 ^ k)).mpr (Nat.le_of_not_lt hle))
  · intro hgt
    cases hA : (Alloc a size (2 ^ k)).1 with
    | none => rfl
    | some p =>
      have hle := (Alloc_succeeds_iff a size (2 ^ k)).mp (by simp [hA])
      omega
  · intro hle
    have hEq := Alloc_success_eq a size (2 ^ k) hle
    refine ⟨by rw [hEq], ?_⟩
    refine ⟨_, by rw [hEq], ?_⟩
    have hdvd : 2 ^ k ∣ W := by
      show 2 ^ k ∣ 2 ^ 64
      exact pow_dvd_pow 2 (Nat.le_of_lt hk)
    rw [Nat.mod_add_mod, Nat.mod_mod_of_dvd _ hdvd]
    exact allocPadding_aligns a k hk

/-- Witness for C2 (amended): a successful 8-aligned allocation on a fresh
100-byte arena based at address 16. -/
theorem c2_alloc_result_spec_witness :
    (Alloc (mkArena 16 100 []) 30 (2 ^ 3)).2 =
      { mkArena 16 100 [] with
        offset := ((mkArena 16 100 []).offset
          + allocPadding (mkArena 16 100 []) (2 ^ 3) + 30) % W } ∧
    ∃ p, (Alloc (mkArena 16 100 []) 30 (2 ^ 3)).1 = some p ∧ p % 2 ^ 3 = 0 :=
  (c2_alloc_result_spec (mkArena 16 100 []) 30 3 (by decide)).2.2 (by decide)

/-- C3: with a power-of-two alignment, a positive base address, an address
range that fits in the 64-bit address space, and `padding + size` within the
remaining capacity, `Alloc` returns a non-null address that is an exact
multiple of the alignment — namely `base + offset + padding`, the next
aligned address at or after `base + offset`. -/
theorem c3_alloc_aligned (a : Arena) (size k : Nat) (hk : k < 64)
    (hbase : 0 < a.memoryBlock) (hspace : a.memoryBlock + a.totalSize < W)
    (hoff : a.offset ≤ a.totalSize)
    (hfit : a.offset + allocPadding a (2 ^ k) + size ≤ a.totalSize) :
    ∃ p, (Alloc a size (2 ^ k)).1 = some p ∧ 0 < p ∧ p % 2 ^ k = 0 ∧
      p = a.memoryBlock + a.offset + allocPadding a (2 ^ k) := by
  have hsum : (a.offset + allocPadding a (2 ^ k) + size) % W
      = a.offset + allocPadding a (2 ^ k) + size :=
    Nat.mod_eq_of_lt (by omega)
  have hEq := Alloc_success_eq a size (2 ^ k) (by rw [hsum]; exact hfit)
  have hcur : (a.memoryBlock + a.offset) % W = a.memoryBlock + a.offset :=
    Nat.mod_eq_of_lt (by omega)
  have haddr : ((a.memoryBlock + a.offset) % W + allocPadding a (2 ^ k)) % W
      = a.memoryBlock + a.offset + allocPadding a (2 ^ k) := by
    rw [hcur]
    exact Nat.mod_eq_of_lt (by omega)
  refine ⟨a.memoryBlock + a.offset + allocPadding a (2 ^ k), ?_, by omega, ?_, rfl⟩
  · rw [hEq, haddr]
  · exact allocPadding_aligns a k hk

/-- Witness for C3: `New<double>` after `New<char>` on a fresh 1024-byte
arena based at 16 — the allocation at offset 1 gets padding 7 and lands on
the 8-aligned address 24. -/
theorem c3_alloc_aligned_witness :
    ∃ p, (Alloc (⟨16, 1024, 1, [], [], 0⟩ : Arena) 8 (2 ^ 3)).1 = some p ∧
      0 < p ∧ p % 2 ^ 3 = 0 ∧
      p = (⟨16, 1024, 1, [], [], 0⟩ : Arena).memoryBlock
        + (⟨16, 1024, 1, [], [], 0⟩ : Arena).offset
        + allocPadding (⟨16, 1024, 1, [], [], 0⟩ : Arena) (2 ^ 3) :=
  c3_alloc_aligned (⟨16, 1024, 1, [], [], 0⟩ : Arena) 8 3 (by decide)
    (by decide) (by decide) (by decide) (by decide)

/-- C9: `AllocArray<T>(count)` passes `sizeof(T) * count` to `Alloc` as a
wrapping `size_t` product with no overflow check.  Concretely, with
`sizeof(T) = alignof(T) = 8` and `count = 2^61 + 1` on a fresh 100-byte
arena based at 8, the product wraps to `8`, so the call returns a non-null
pointer having reserved only 8 bytes — fewer than the `8 * (2^61 + 1)`
bytes of `count` elements. -/
theorem c9_allocarray_overflow :
    AllocArray (mkArena 8 100 []) 8 8 (2 ^ 61 + 1) =
      Alloc (mkArena 8 100 []) ((8 * (2 ^ 61 + 1)) % W) 8 ∧
    (AllocArray (mkArena 8 100 []) 8 8 (2 ^ 61 + 1)).1 = some 8 ∧
    (AllocArray (mkArena 8 100 []) 8 8 (2 ^ 61 + 1)).2.offset = 8 ∧
    (AllocArray (mkArena 8 100 []) 8 8 (2 ^ 61 + 1)).2.offset < 8 * (2 ^ 61 + 1) :=
  ⟨rfl, by decide, by decide, by decide⟩

/-- C10: when `base + offset` is already `align`-aligned (padding 0), a
zero-size allocation succeeds, returns `base + offset`, and leaves the
state unchanged — even when `offset = capacity`, i.e. on a completely full
arena, where the returned pointer is one past the end of the buffer. -/
theorem c10_zero_size_alloc (a : Arena) (k : Nat) (hk : k < 64)
    (haligned : (a.memoryBlock + a.offset) % 2 ^ k = 0)
    (hoff : a.offset ≤ a.totalSize)
    (hbase : 0 < a.memoryBlock) (hspace : a.memoryBlock + a.totalSize < W) :
    Alloc a 0 (2 ^ k) = (some (a.memoryBlock + a.offset), a) ∧
    0 < a.memoryBlock + a.offset := by
  have hpad : allocPadding a (2 ^ k) = 0 := by
    rw [allocPadding_two_pow a k hk, if_pos haligned]
  have hoffW : a.offset % W = a.offset := Nat.mod_eq_of_lt (by omega)
  have hEq := Alloc_success_eq a 0 (2 ^ k) (by rw [hpad]; simpa [hoffW] using hoff)
  rw [hpad] at hEq
  have hcur : (a.memoryBlock + a.offset) % W = a.memoryBlock + a.offset :=
    Nat.mod_eq_of_lt (by omega)
  simp only [Nat.add_zero, hoffW, hcur] at hEq
  refine ⟨?_, by omega⟩
  rw [hEq]

/-- Witness for C10: a completely full arena (`offset = capacity = 64`,
base 16): `Alloc(0, 8)` still returns the one-past-the-end address 80 and
changes nothing. -/
theorem c10_zero_size_alloc_witness :
    Alloc (⟨16, 64, 64, [], [], 0⟩ : Arena) 0 (2 ^ 3) =
      (some ((⟨16, 64, 64, [], [], 0⟩ : Arena).memoryBlock
        + (⟨16, 64, 64, [], [], 0⟩ : Arena).offset),
        (⟨16, 64, 64, [], [], 0⟩ : Arena)) ∧
    0 < (⟨16, 64, 64, [], [], 0⟩ : Arena).memoryBlock
      + (⟨16, 64, 64, [], [], 0⟩ : Arena).offset :=
  c10_zero_size_alloc (⟨16, 64, 64, [], [], 0⟩ : Arena) 3 (by decide)
    (by decide) (by decide) (by decide) (by decide)

/-- C4, counterexample to the claim as stated: with a huge request the
`size_t` guard sum wraps, the allocation "succeeds", and a later allocation
starts below `A.address + A.size`.  From a fresh 100-byte arena based at 8:
`Alloc(50, 1)` fills to offset 50; then A = `Alloc(2^64 - 10, 1)` succeeds
at address 58 (wrapped sum 40); then B = `Alloc(1, 1)` succeeds at address
48 < 58 + (2^64 - 10), violating the claimed non-overlap. -/
theorem c4_counterexample :
    (Alloc (Alloc (mkArena 8 100 []) 50 1).2 (2 ^ 64 - 10) 1).1 = some 58 ∧
    (Alloc (Alloc (Alloc (mkArena 8 100 []) 50 1).2 (2 ^ 64 - 10) 1).2 1 1).1
      = some 48 ∧
    48 < 58 + (2 ^ 64 - 10) :=
  ⟨by decide, by decide, by decide⟩

/-- C4 (amended): for successful allocations A then B on the same arena
with no reset between them, B's starting address is at least A's starting
address plus A's requested size — provided the buffer lies within the
address space (`base + capacity < 2^64`) and no `size_t` addition in any
intervening guard wraps (each step's exact `offset + padding + size` is
below `2^64`); without the no-wrap proviso the property fails
(`c4_counterexample`). -/
theorem c4_no_overlap (a : Arena) (sA alA sB alB : Nat)
    (mid : List (Nat × Nat)) (pA pB : Nat)
    (hspace : a.memoryBlock + a.totalSize < W) (hoff : a.offset ≤ a.totalSize)
    (hnwA : a.offset + allocPadding a alA + sA < W)
    (hA : (Alloc a sA alA).1 = some pA)
    (hnwMid : noWrapAllocs (Alloc a sA alA).2 mid = true)
    (hnwB : (runAllocs (Alloc a sA alA).2 mid).offset
        + allocPadding (runAllocs (Alloc a sA alA).2 mid) alB + sB < W)
    (hB : (Alloc (runAllocs (Alloc a sA alA).2 mid) sB alB).1 = some pB) :
    pA + sA ≤ pB := by
  have hAspec := Alloc_addr_no_wrap a sA alA pA hspace hoff hnwA hA
  have hbBase : (Alloc a sA alA).2.memoryBlock = a.memoryBlock :=
    (Alloc_frame a sA alA).1
  have hbTot : (Alloc a sA alA).2.totalSize = a.totalSize :=
    (Alloc_frame a sA alA).2.1
  have hbOff : (Alloc a sA alA).2.offset ≤ (Alloc a sA alA).2.totalSize := by
    rw [hbTot]; exact Alloc_offset_le a sA alA hoff
  have hmBase : (runAllocs (Alloc a sA alA).2 mid).memoryBlock = a.memoryBlock :=
    (runAllocs_frame mid _).1.trans hbBase
  have hmTot : (runAllocs (Alloc a sA alA).2 mid).totalSize = a.totalSize :=
    (runAllocs_frame mid _).2.trans hbTot
  have hmOff : (runAllocs (Alloc a sA alA).2 mid).offset ≤ a.totalSize := by
    have := runAllocs_offset_le mid _ hbOff
    rwa [hbTot] at this
  have hmono : (Alloc a sA alA).2.offset ≤ (runAllocs (Alloc a sA alA).2 mid).offset :=
    runAllocs_offset_mono mid _ hnwMid
  have hBspec := Alloc_addr_no_wrap (runAllocs (Alloc a sA alA).2 mid) sB alB pB
    (by rw [hmBase, hmTot]; exact hspace) (by rw [hmTot]; exact hmOff) hnwB hB
  have h1 : pA + sA
      = a.memoryBlock + (Alloc a sA alA).2.offset := by
    rw [hAspec.1, hAspec.2]; ring
  have h2 : a.memoryBlock + (runAllocs (Alloc a sA alA).2 mid).offset ≤ pB := by
    rw [hBspec.1, hmBase]; omega
  omega

/-- Witness for C4 (amended): A = `Alloc(10, 8)` at address 16, a small
allocation in between, B = `Alloc(4, 4)` at address 32 ≥ 16 + 10. -/
theorem c4_no_overlap_witness : 16 + 10 ≤ (32 : Nat) := by
  have h := c4_no_overlap (mkArena 16 100 []) 10 8 4 4 [(5, 1)] 16 32
    (by decide) (by decide) (by decide) (by decide) (by decide) (by decide)
    (by decide)
  exact h

/-- C5: take a marker `M = GetMarker()`, run any sequence of allocations,
then `ResetToMarker(M)`: afterwards `GetUsedMemory()` equals `M`, and any
subsequent sequence of allocation requests produces exactly the same
result sequence (same addresses, same failures) as it would have produced
immediately after the marker was taken. -/
theorem c5_marker_roundtrip (a : Arena) (reqs reqs2 : List (Nat × Nat)) :
    GetUsedMemory (ResetToMarker (runAllocs a reqs) (GetMarker a)) = GetMarker a ∧
    allocResults (ResetToMarker (runAllocs a reqs) (GetMarker a)) reqs2 =
      allocResults a reqs2 := by
  refine ⟨rfl, allocResults_congr reqs2 _ _ ?_ ?_ rfl⟩
  · exact (runAllocs_frame reqs a).1
  · exact (runAllocs_frame reqs a).2

/-- C6: after `Reset()` on an arena that has gone through any history of
operations since construction, `GetUsedMemory()` is 0 and the next
allocation returns exactly what the very first allocation after
construction would return — in particular `Alloc(100)`, `Reset()`,
`Alloc(100)` yield the identical address twice. -/
theorem c6_reset_replays_first_alloc (block cap : Nat) (contents : List Nat)
    (ops : List Op) (s al : Nat) :
    GetUsedMemory (Reset (run (mkArena block cap contents) ops)) = 0 ∧
    (Alloc (Reset (run (mkArena block cap contents) ops)) s al).1 =
      (Alloc (mkArena block cap contents) s al).1 := by
  refine ⟨rfl, ?_⟩
  exact (Alloc_congr (Reset (run (mkArena block cap contents) ops))
    (mkArena block cap contents) s al
    (run_frame ops (mkArena block cap contents)).1
    (run_frame ops (mkArena block cap contents)).2.1 rfl).1

/-- C7: `New<T>` returns the null sentinel exactly when the underlying
`Alloc(sizeof(T), alignof(T))` does; on failure the arena state (bump
position, buffer, construction log, …) is completely unchanged — no
construction, not even a partial one, is recorded; on success the returned
pointer is the address `Alloc` returned and exactly one construction is
recorded there. -/
theorem c7_new_spec (a : Arena) (s al : Nat) :
    ((New a s al).1 = none ↔ (Alloc a s al).1 = none) ∧
    ((New a s al).1 = none → (New a s al).2 = a) ∧
    (∀ p, (New a s al).1 = some p →
      (Alloc a s al).1 = some p ∧
      (New a s al).2 =
        { (Alloc a s al).2 with
          constructions := p :: (Alloc a s al).2.constructions }) := by
  have hfail := Alloc_fail_frame a s al
  unfold New
  rcases hA : Alloc a s al with ⟨mem, a'⟩
  rw [hA] at hfail
  cases mem with
  | none => simp_all
  | some p => simp_all

/-- Witness for C7: on a 2-byte arena `New` of an 8-byte object fails and
leaves the fresh state intact; on a 100-byte arena it succeeds, returns the
address 16 that `Alloc` chose, and records the construction there. -/
theorem c7_new_spec_witness :
    (New (mkArena 16 2 []) 8 8).2 = mkArena 16 2 [] ∧
    (Alloc (mkArena 16 100 []) 8 8).1 = some 16 ∧
    (New (mkArena 16 100 []) 8 8).2 =
      { (Alloc (mkArena 16 100 []) 8 8).2 with
        constructions := 16 :: (Alloc (mkArena 16 100 []) 8 8).2.constructions } := by
  refine ⟨(c7_new_spec (mkArena 16 2 []) 8 8).2.1 (by decide), ?_, ?_⟩
  · exact ((c7_new_spec (mkArena 16 100 []) 8 8).2.2 16 (by decide)).1
  · exact ((c7_new_spec (mkArena 16 100 []) 8 8).2.2 16 (by decide)).2

/-- C8: `Reset` and `ResetToMarker` write only `m_offset`: the base
pointer (buffer identity), the capacity, every byte of the buffer's
contents, and the construction log are untouched, and no destructor of any
object living in the buffer runs — the destruction counter, which any
teardown would bump, is unchanged (so a teardown flag set by a destructor
would remain unset). -/
theorem c8_reset_frame (a : Arena) (m : Nat) :
    (Reset a).offset = 0 ∧
    (Reset a).memoryBlock = a.memoryBlock ∧
    (Reset a).totalSize = a.totalSize ∧
    (Reset a).buf = a.buf ∧
    (Reset a).constructions = a.constructions ∧
    (Reset a).destructions = a.destructions ∧
    (ResetToMarker a m).offset = m ∧
    (ResetToMarker a m).memoryBlock = a.memoryBlock ∧
    (ResetToMarker a m).totalSize = a.totalSize ∧
    (ResetToMarker a m).buf = a.buf ∧
    (ResetToMarker a m).constructions = a.constructions ∧
    (ResetToMarker a m).destructions = a.destructions :=
  ⟨rfl, rfl, rfl, rfl, rfl, rfl, rfl, rfl, rfl, rfl, rfl, rfl⟩
